import Mathlib

/-!
# Verification of the knowledge-ingestion / RAG core

Shallow embedding of the schema, triggers and SQL functions of the study
assistant's content store (`part_000`), together with the frontend file and
quiz handlers (`TopicUpload.tsx`, the quiz runner page).  Tables are lists of
row structures in insertion order; SQL `UPDATE`/`DELETE` statements become
list transformations; triggers run where the DDL attaches them.
-/

namespace Centry

/-- The `vector_status` check-constraint domain of `topic_files`
(`part_000` line 107). -/
inductive VectorStatus
  | not_ingested
  | ingesting
  | ingested
  | excluded
  | deleted
deriving DecidableEq, Repr

/-- A row of `public.topic_files` (the columns the core logic reads). -/
structure TopicFileRow where
  id : Nat
  topic_id : Nat
  user_id : Nat
  include_in_rag : Bool
  vector_status : VectorStatus
  deleted_at : Option Nat
deriving DecidableEq, Repr

/-- A row of `public.documents`. -/
structure DocumentRow where
  id : Nat
  topic_id : Nat
  topic_file_id : Nat
deriving DecidableEq, Repr

/-- A row of `public.chunks`.  Embeddings are rational vectors; `metadata`
is kept opaque as a string. -/
structure ChunkRow where
  id : Nat
  document_id : Nat
  topic_id : Nat
  content : String
  embedding : List ℚ
  is_active : Bool
  metadata : String
deriving DecidableEq, Repr

/-- The content-store tables the ingestion/consistency core touches. -/
structure ContentStore where
  topic_files : List TopicFileRow
  documents : List DocumentRow
  chunks : List ChunkRow
deriving DecidableEq, Repr

/-- `c.document_id in (select d.id from documents d where d.topic_file_id = new.id)`:
the chunk is transitively owned (via a document) by the file `fid`. -/
def chunkOwnedByFile (docs : List DocumentRow) (fid : Nat) (c : ChunkRow) : Bool :=
  docs.any fun d => d.topic_file_id = fid && d.id = c.document_id

/-- `public.sync_chunks_active_from_file` (`part_000` lines 210-217): after a
`topic_files` row update, set `is_active = (new.include_in_rag and
new.vector_status = 'ingested')` on every chunk whose document belongs to the
file. -/
def sync_chunks_active_from_file (docs : List DocumentRow) (newRow : TopicFileRow)
    (chunks : List ChunkRow) : List ChunkRow :=
  chunks.map fun c =>
    if chunkOwnedByFile docs newRow.id c then
      { c with is_active := newRow.include_in_rag
                 && decide (newRow.vector_status = VectorStatus.ingested) }
    else c

/-- `update public.topic_files set include_in_rag = inc, vector_status = vs
where id = fid`, with the `t_file_sync_chunks` row trigger (`part_000`
lines 219-222) firing once per updated row. -/
def updateTopicFileRag (s : ContentStore) (fid : Nat) (inc : Bool)
    (vs : VectorStatus) : ContentStore :=
  let upd : TopicFileRow → TopicFileRow := fun f =>
    { f with include_in_rag := inc, vector_status := vs }
  let newRows := (s.topic_files.filter (fun f => f.id = fid)).map upd
  { s with
    topic_files := s.topic_files.map fun f => if f.id = fid then upd f else f
    chunks := newRows.foldl
      (fun cs nr => sync_chunks_active_from_file s.documents nr cs) s.chunks }

/-- After one pass of the sync trigger, every chunk owned by the triggering
file row carries the recomputed flag. -/
theorem syncPass_owned_active (docs : List DocumentRow) (nr : TopicFileRow)
    (cs : List ChunkRow) :
    ∀ c ∈ sync_chunks_active_from_file docs nr cs,
      chunkOwnedByFile docs nr.id c = true →
      c.is_active = (nr.include_in_rag
        && decide (nr.vector_status = VectorStatus.ingested)) := by
  intro c hc hown
  unfold sync_chunks_active_from_file at hc
  rcases List.mem_map.mp hc with ⟨c₀, _, rfl⟩
  by_cases h : chunkOwnedByFile docs nr.id c₀ = true
  · rw [if_pos h]
  · rw [if_neg h] at hown ⊢
    exact absurd hown h

/-- Folding the sync trigger over a nonempty batch of updated rows, all with
file id `fid` and the same new flags, leaves every owned chunk with the
recomputed flag (the last pass determines the value). -/
theorem foldl_syncPass_owned_active (docs : List DocumentRow) (fid : Nat)
    (inc : Bool) (vs : VectorStatus) :
    ∀ (L : List TopicFileRow) (cs : List ChunkRow), L ≠ [] →
      (∀ f ∈ L, f.id = fid ∧ f.include_in_rag = inc ∧ f.vector_status = vs) →
      ∀ c ∈ L.foldl (fun cs nr => sync_chunks_active_from_file docs nr cs) cs,
        chunkOwnedByFile docs fid c = true →
        c.is_active = (inc && decide (vs = VectorStatus.ingested)) := by
  intro L
  induction L with
  | nil => intro cs h; exact absurd rfl h
  | cons f L ih =>
    intro cs _ hall c hc hown
    rcases hall f (List.mem_cons_self f L) with ⟨hid, hinc, hvs⟩
    by_cases hL : L = []
    · subst hL
      simp only [List.foldl_cons, List.foldl_nil] at hc
      have := syncPass_owned_active docs f cs c hc (by rw [hid]; exact hown)
      rw [hinc, hvs] at this
      exact this
    · exact ih _ hL (fun g hg => hall g (List.mem_cons_of_mem f hg)) c hc hown

/-- C1: for every `TopicFile`, whenever its `include_in_rag` flag or
`vector_status` changes, every chunk transitively owned by that file (through
its documents) ends the mutation with `is_active` equal to
`(include_in_rag && vector_status = 'ingested')`; Invariant 1 holds after the
file mutation settles. -/
theorem C1_file_mutation_syncs_chunks (s : ContentStore) (fid : Nat)
    (inc : Bool) (vs : VectorStatus)
    (hex : s.topic_files.any (fun f => f.id = fid) = true) :
    (∀ f ∈ (updateTopicFileRag s fid inc vs).topic_files, f.id = fid →
        f.include_in_rag = inc ∧ f.vector_status = vs) ∧
    (∀ c ∈ (updateTopicFileRag s fid inc vs).chunks,
        chunkOwnedByFile (updateTopicFileRag s fid inc vs).documents fid c = true →
        c.is_active = (inc && decide (vs = VectorStatus.ingested))) := by
  constructor
  · intro f hf hid
    unfold updateTopicFileRag at hf
    rcases List.mem_map.mp hf with ⟨f₀, _, rfl⟩
    by_cases h : f₀.id = fid
    · rw [if_pos h]; exact ⟨rfl, rfl⟩
    · rw [if_neg h] at hid ⊢
      exact absurd hid h
  · intro c hc hown
    have hdocs : (updateTopicFileRag s fid inc vs).documents = s.documents := rfl
    rw [hdocs] at hown
    unfold updateTopicFileRag at hc
    refine foldl_syncPass_owned_active s.documents fid inc vs
      ((s.topic_files.filter (fun f => f.id = fid)).map
        (fun f => { f with include_in_rag := inc, vector_status := vs }))
      s.chunks ?_ ?_ c hc hown
    · intro hnil
      rw [List.map_eq_nil_iff] at hnil
      rcases List.any_eq_true.mp hex with ⟨f, hf, hfid⟩
      have : f ∈ s.topic_files.filter (fun f => f.id = fid) :=
        List.mem_filter.mpr ⟨hf, hfid⟩
      rw [hnil] at this
      exact absurd this (List.not_mem_nil f)
    · intro f hf
      rcases List.mem_map.mp hf with ⟨f₀, hf₀, rfl⟩
      have hfid : f₀.id = fid := by
        have h := (List.mem_filter.mp hf₀).2
        exact of_decide_eq_true h
      exact ⟨hfid, rfl, rfl⟩

/-- Example content store: one file, one document, one chunk. -/
def exStore : ContentStore :=
  { topic_files := [{ id := 1, topic_id := 7, user_id := 3, include_in_rag := false,
                      vector_status := VectorStatus.excluded, deleted_at := none }]
    documents := [{ id := 10, topic_id := 7, topic_file_id := 1 }]
    chunks := [{ id := 100, document_id := 10, topic_id := 7, content := "intro",
                 embedding := [], is_active := true, metadata := "" }] }

theorem C1_file_mutation_syncs_chunks_witness :
    (exStore.topic_files.any (fun f => f.id = 1) = true) ∧
    ((∀ f ∈ (updateTopicFileRag exStore 1 true VectorStatus.ingested).topic_files,
        f.id = 1 → f.include_in_rag = true ∧ f.vector_status = VectorStatus.ingested) ∧
     (∀ c ∈ (updateTopicFileRag exStore 1 true VectorStatus.ingested).chunks,
        chunkOwnedByFile (updateTopicFileRag exStore 1 true VectorStatus.ingested).documents
          1 c = true →
        c.is_active = (true && decide (VectorStatus.ingested = VectorStatus.ingested)))) :=
  ⟨by decide, C1_file_mutation_syncs_chunks exStore 1 true VectorStatus.ingested (by decide)⟩

/-- Insert into `public.chunks` (`part_000` lines 121-131): the DDL default
for `is_active` is `true`; the insert touches no other table and no trigger
recomputes the flag. -/
def insertChunk (s : ContentStore) (cid did tid : Nat) (content : String)
    (emb : List ℚ) (md : String) : ContentStore :=
  { s with chunks := s.chunks ++
      [{ id := cid, document_id := did, topic_id := tid, content := content,
         embedding := emb, is_active := true, metadata := md }] }

/-- C10: a chunk inserted into the content store defaults to
`is_active = true` regardless of its owning file's `include_in_rag` flag or
`vector_status` (the insert appends exactly the default-active row, touching
nothing else), and `is_active` is recomputed only when the owning
`topic_files` row is subsequently updated — witnessed concretely by a chunk
inserted under an excluded file: `is_active ⇔ (include_in_rag ∧ ingested)`
fails right after the insert and holds again after the next file update. -/
theorem C10_insert_default_active :
    (∀ (s : ContentStore) (cid did tid : Nat) (content : String)
        (emb : List ℚ) (md : String),
      (insertChunk s cid did tid content emb md).topic_files = s.topic_files ∧
      (insertChunk s cid did tid content emb md).documents = s.documents ∧
      (insertChunk s cid did tid content emb md).chunks = s.chunks ++
        [{ id := cid, document_id := did, topic_id := tid, content := content,
           embedding := emb, is_active := true, metadata := md }]) ∧
    (∃ c ∈ (insertChunk exStore 101 10 7 "ch" [] "").chunks,
      chunkOwnedByFile (insertChunk exStore 101 10 7 "ch" [] "").documents 1 c = true ∧
      ∃ f ∈ (insertChunk exStore 101 10 7 "ch" [] "").topic_files, f.id = 1 ∧
        c.is_active ≠ (f.include_in_rag
          && decide (f.vector_status = VectorStatus.ingested))) ∧
    (∀ c ∈ (updateTopicFileRag (insertChunk exStore 101 10 7 "ch" [] "")
              1 false VectorStatus.excluded).chunks,
      chunkOwnedByFile exStore.documents 1 c = true →
        c.is_active = (false && decide (VectorStatus.excluded = VectorStatus.ingested))) := by
  refine ⟨fun s cid did tid content emb md => ⟨rfl, rfl, rfl⟩, ?_, ?_⟩
  · decide
  · decide

/-- Which code path issues a database write: the `t_file_sync_chunks` trigger
(the Consistency Synchronizer) or the `TopicUpload` frontend component. -/
inductive DbWriter
  | syncTrigger
  | uploadComponent
deriving DecidableEq, Repr

/-- The table a write statement targets. -/
inductive DbTable
  | topicFilesTable
  | documentsTable
  | chunksTable
deriving DecidableEq, Repr

/-- One write statement, tagged with its issuer and its target table. -/
structure WriteEvent where
  writer : DbWriter
  table : DbTable
deriving DecidableEq, Repr

/-- `setChunksActiveForFile` (`TopicUpload.tsx` lines 306-327): the frontend
reads the file's document ids and, when any exist, directly updates
`chunks.is_active` for those documents.  Returns the new store and the write
trace. -/
def setChunksActiveForFile (s : ContentStore) (topicFileId : Nat)
    (active : Bool) : ContentStore × List WriteEvent :=
  let ids := (s.documents.filter fun d => d.topic_file_id = topicFileId).map
    (fun d => d.id)
  if ids.isEmpty then (s, [])
  else
    ({ s with chunks := s.chunks.map fun c =>
        if ids.contains c.document_id then { c with is_active := active } else c },
     [{ writer := DbWriter.uploadComponent, table := DbTable.chunksTable }])

/-- `toggleInclude` (`TopicUpload.tsx` lines 330-381): persist
`include_in_rag = next` and `vector_status = (next ? 'ingested' : 'excluded')`
on the file row — the update fires the sync trigger once per matched row —
and then call `setChunksActiveForFile`. -/
def toggleInclude (s : ContentStore) (fid : Nat) (next : Bool) :
    ContentStore × List WriteEvent :=
  let vs := if next then VectorStatus.ingested else VectorStatus.excluded
  let s₁ := updateTopicFileRag s fid next vs
  let triggerEvents := (s.topic_files.filter fun f => f.id = fid).map
    (fun _ => { writer := DbWriter.syncTrigger, table := DbTable.chunksTable : WriteEvent })
  let p := setChunksActiveForFile s₁ fid next
  (p.1, ({ writer := DbWriter.uploadComponent, table := DbTable.topicFilesTable : WriteEvent }
          :: triggerEvents) ++ p.2)

/-- A chunk is owned by file `fid` exactly when its `document_id` appears in
the id list the frontend collects for that file. -/
theorem owned_eq_contains_docIds (docs : List DocumentRow) (fid : Nat) (c : ChunkRow) :
    chunkOwnedByFile docs fid c =
      ((docs.filter fun d => d.topic_file_id = fid).map (fun d => d.id)).contains
        c.document_id := by
  rw [Bool.eq_iff_iff]
  unfold chunkOwnedByFile
  constructor
  · intro h
    rcases List.any_eq_true.mp h with ⟨d, hd, hdp⟩
    rw [Bool.and_eq_true] at hdp
    rcases hdp with ⟨h1, h2⟩
    have hmem : d.id ∈ (docs.filter fun d => d.topic_file_id = fid).map
        (fun d => d.id) :=
      List.mem_map.mpr ⟨d, List.mem_filter.mpr ⟨hd, h1⟩, rfl⟩
    have : c.document_id ∈ (docs.filter fun d => d.topic_file_id = fid).map
        (fun d => d.id) := by
      rw [← of_decide_eq_true h2]; exact hmem
    simpa using this
  · intro h
    have hmem : c.document_id ∈ (docs.filter fun d => d.topic_file_id = fid).map
        (fun d => d.id) := by simpa using h
    rcases List.mem_map.mp hmem with ⟨d, hd, hdid⟩
    rcases List.mem_filter.mp hd with ⟨hd0, h1⟩
    refine List.any_eq_true.mpr ⟨d, hd0, ?_⟩
    rw [Bool.and_eq_true]
    exact ⟨h1, decide_eq_true hdid⟩

/-- Every chunk owned by `fid` carries flag `active` after the frontend's
direct chunk write. -/
theorem setChunksActiveForFile_owned (s : ContentStore) (fid : Nat)
    (active : Bool) :
    ∀ c ∈ (setChunksActiveForFile s fid active).1.chunks,
      chunkOwnedByFile s.documents fid c = true → c.is_active = active := by
  intro c hc hown
  unfold setChunksActiveForFile at hc
  by_cases hids : ((s.documents.filter fun d => d.topic_file_id = fid).map
      (fun d => d.id)).isEmpty
  · rw [if_pos hids] at hc
    rw [owned_eq_contains_docIds] at hown
    rw [List.isEmpty_iff] at hids
    rw [hids] at hown
    exact absurd hown (by simp)
  · rw [if_neg hids] at hc
    rcases List.mem_map.mp hc with ⟨c₀, _, rfl⟩
    rw [owned_eq_contains_docIds] at hown
    by_cases h : ((s.documents.filter fun d => d.topic_file_id = fid).map
        (fun d => d.id)).contains c₀.document_id = true
    · rw [if_pos h]
    · rw [if_neg h] at hown ⊢
      exact absurd hown h

/-- The frontend chunk write never touches the `documents` table. -/
theorem setChunksActiveForFile_documents (s : ContentStore) (fid : Nat)
    (active : Bool) :
    (setChunksActiveForFile s fid active).1.documents = s.documents := by
  unfold setChunksActiveForFile
  by_cases h : ((s.documents.filter fun d => d.topic_file_id = fid).map
      (fun d => d.id)).isEmpty = true
  · rw [if_pos h]
  · rw [if_neg h]

/-- A toggle never touches the `documents` table. -/
theorem toggleInclude_documents (s : ContentStore) (fid : Nat) (next : Bool) :
    (toggleInclude s fid next).1.documents = s.documents := by
  unfold toggleInclude
  exact setChunksActiveForFile_documents _ fid next

/-- C7 fails on the code: toggling a file's inclusion issues a chunk-level
write from the `TopicUpload` component itself (`setChunksActiveForFile`), not
only from the Synchronizer trigger — here on a concrete store with one file,
one document and one chunk. -/
theorem C7_counterexample :
    ({ writer := DbWriter.uploadComponent, table := DbTable.chunksTable : WriteEvent }
        ∈ (toggleInclude exStore 1 false).2) ∧
    ¬ (∀ e ∈ (toggleInclude exStore 1 false).2,
        e.table = DbTable.chunksTable → e.writer = DbWriter.syncTrigger) := by
  refine ⟨by decide, ?_⟩
  intro h
  have := h { writer := DbWriter.uploadComponent, table := DbTable.chunksTable }
    (by decide) rfl
  exact absurd this (by decide)

/-- C7 (amended): toggling a file's `include_in_rag` off and back on leaves
the file's chunks `is_active = false` then `true`, but the chunk writes are
not exclusive to the Consistency Synchronizer — the `TopicUpload` component
issues its own direct `chunks` update on every toggle for a file with
documents, redundantly writing the value the trigger already computed. -/
theorem C7_toggle_restores_active_but_frontend_writes_chunks
    (s : ContentStore) (fid : Nat) :
    (∀ c ∈ (toggleInclude s fid false).1.chunks,
        chunkOwnedByFile s.documents fid c = true → c.is_active = false) ∧
    (∀ c ∈ (toggleInclude (toggleInclude s fid false).1 fid true).1.chunks,
        chunkOwnedByFile s.documents fid c = true → c.is_active = true) ∧
    ((s.documents.any fun d => d.topic_file_id = fid) = true →
      { writer := DbWriter.uploadComponent, table := DbTable.chunksTable : WriteEvent }
        ∈ (toggleInclude s fid false).2) := by
  refine ⟨?_, ?_, ?_⟩
  · intro c hc hown
    exact setChunksActiveForFile_owned
      (updateTopicFileRag s fid false VectorStatus.excluded) fid false c hc hown
  · intro c hc hown
    have hown' : chunkOwnedByFile
        (updateTopicFileRag (toggleInclude s fid false).1 fid true
          VectorStatus.ingested).documents fid c = true := by
      have hd : (updateTopicFileRag (toggleInclude s fid false).1 fid true
          VectorStatus.ingested).documents = (toggleInclude s fid false).1.documents := rfl
      rw [hd, toggleInclude_documents]
      exact hown
    exact setChunksActiveForFile_owned
      (updateTopicFileRag (toggleInclude s fid false).1 fid true VectorStatus.ingested)
      fid true c hc hown'
  · intro h
    rcases List.any_eq_true.mp h with ⟨d, hd, hdp⟩
    have hmem : d.id ∈ (((updateTopicFileRag s fid false VectorStatus.excluded).documents.filter
        fun d => d.topic_file_id = fid).map (fun d => d.id)) :=
      List.mem_map.mpr ⟨d, List.mem_filter.mpr ⟨hd, hdp⟩, rfl⟩
    have hne : (((updateTopicFileRag s fid false VectorStatus.excluded).documents.filter
        fun d => d.topic_file_id = fid).map (fun d => d.id)).isEmpty = false := by
      cases hcase : (((updateTopicFileRag s fid false VectorStatus.excluded).documents.filter
          fun d => d.topic_file_id = fid).map (fun d => d.id)).isEmpty
      · rfl
      · rw [List.isEmpty_iff] at hcase
        rw [hcase] at hmem
        exact absurd hmem (List.not_mem_nil d.id)
    show _ ∈ (_ :: _) ++ (setChunksActiveForFile
      (updateTopicFileRag s fid false VectorStatus.excluded) fid false).2
    refine List.mem_append.mpr (Or.inr ?_)
    unfold setChunksActiveForFile
    rw [if_neg (fun hcon => by rw [hne] at hcon; exact Bool.false_ne_true hcon)]
    exact List.mem_singleton.mpr rfl

theorem C7_toggle_restores_active_witness :
    (∀ c ∈ (toggleInclude exStore 1 false).1.chunks,
        chunkOwnedByFile exStore.documents 1 c = true → c.is_active = false) ∧
    (∀ c ∈ (toggleInclude (toggleInclude exStore 1 false).1 1 true).1.chunks,
        chunkOwnedByFile exStore.documents 1 c = true → c.is_active = true) ∧
    ((exStore.documents.any fun d => d.topic_file_id = 1) = true →
      { writer := DbWriter.uploadComponent, table := DbTable.chunksTable : WriteEvent }
        ∈ (toggleInclude exStore 1 false).2) :=
  C7_toggle_restores_active_but_frontend_writes_chunks exStore 1

/-- The file row inserted by `handleFiles` (`TopicUpload.tsx` lines 250-268):
new uploads are created with `include_in_rag = true` and
`vector_status = 'ingesting'`. -/
def handleFilesInsertRow (fid tid uid : Nat) : TopicFileRow :=
  { id := fid, topic_id := tid, user_id := uid, include_in_rag := true,
    vector_status := VectorStatus.ingesting, deleted_at := none }

/-- The file-row update persisted by `toggleInclude`
(`TopicUpload.tsx` lines 353-362). -/
def toggleIncludeFileUpdate (f : TopicFileRow) (next : Bool) : TopicFileRow :=
  { f with include_in_rag := next,
           vector_status := if next then VectorStatus.ingested
                            else VectorStatus.excluded }

/-- The soft-delete file-row update persisted by `deleteFile`
(`TopicUpload.tsx` lines 416-424). -/
def deleteFileUpdate (f : TopicFileRow) (t : Nat) : TopicFileRow :=
  { f with deleted_at := some t, vector_status := VectorStatus.deleted,
           include_in_rag := false }

/-- Modelled from the spec: the `vector_status` edges the claim allows —
`not_ingested → ingesting → {ingested | excluded}` within one ingestion
attempt, plus `deleted` reachable from any state. -/
def specAllowedEdge : VectorStatus → VectorStatus → Bool
  | VectorStatus.not_ingested, VectorStatus.ingesting => true
  | VectorStatus.ingesting, VectorStatus.ingested => true
  | VectorStatus.ingesting, VectorStatus.excluded => true
  | _, VectorStatus.deleted => true
  | _, _ => false

/-- A concrete excluded file (the file row of `exStore`). -/
def exFileExcluded : TopicFileRow :=
  { id := 1, topic_id := 7, user_id := 3, include_in_rag := false,
    vector_status := VectorStatus.excluded, deleted_at := none }

/-- C6 fails on the code: re-enabling an excluded file moves `vector_status`
directly from `'excluded'` to `'ingested'` — an edge outside the claimed
transition system — and `handleFiles` creates files already in
`'ingesting'`, never passing through `'not_ingested'`. -/
theorem C6_counterexample :
    exFileExcluded.vector_status = VectorStatus.excluded ∧
    (toggleIncludeFileUpdate exFileExcluded true).vector_status =
      VectorStatus.ingested ∧
    specAllowedEdge VectorStatus.excluded VectorStatus.ingested = false ∧
    (handleFilesInsertRow 2 7 3).vector_status = VectorStatus.ingesting := by
  decide

/-- C6 (amended): the operations actually move `vector_status` as follows —
upload creates the file directly in `'ingesting'`; the inclusion toggle sets
it directly to `'ingested'` (on) or `'excluded'` (off) regardless of the
prior status, so `excluded → ingested` occurs without re-ingestion; deletion
sets `'deleted'` from any state. -/
theorem C6_actual_file_status_transitions (f : TopicFileRow) (next : Bool)
    (fid tid uid t : Nat) :
    (handleFilesInsertRow fid tid uid).vector_status = VectorStatus.ingesting ∧
    (handleFilesInsertRow fid tid uid).include_in_rag = true ∧
    (toggleIncludeFileUpdate f next).vector_status =
      (if next then VectorStatus.ingested else VectorStatus.excluded) ∧
    (toggleIncludeFileUpdate f next).include_in_rag = next ∧
    (deleteFileUpdate f t).vector_status = VectorStatus.deleted ∧
    (deleteFileUpdate f t).include_in_rag = false ∧
    (deleteFileUpdate f t).deleted_at = some t :=
  ⟨rfl, rfl, rfl, rfl, rfl, rfl, rfl⟩

/-- An output row of `public.match_documents` (`part_000` line 455):
`(document_id, content, metadata, similarity)`. -/
structure SearchResult where
  document_id : Nat
  content : String
  metadata : String
  similarity : ℚ
deriving DecidableEq, Repr

/-- A row of `chunks c join documents d on d.id = c.document_id`, tagged with
its position `idx` in the scan: chunks are scanned in insertion order
(`bigserial` primary key), so `idx` is the insertion order of the joined
relation. -/
structure MatchRow where
  chunk : ChunkRow
  doc : DocumentRow
  idx : Nat
deriving DecidableEq, Repr

/-- `from public.chunks c join public.documents d on d.id = c.document_id`. -/
def matchJoin (chunks : List ChunkRow) (docs : List DocumentRow) :
    List (ChunkRow × DocumentRow) :=
  chunks.flatMap fun c =>
    (docs.filter fun d => d.id = c.document_id).map fun d => (c, d)

/-- `where (p_topic_id is null or c.topic_id = p_topic_id)
and (not p_only_active or c.is_active)` (`part_000` lines 463-464). -/
def matchWhere (p_topic_id : Option Nat) (p_only_active : Bool)
    (cd : ChunkRow × DocumentRow) : Bool :=
  (match p_topic_id with
   | none => true
   | some t => decide (cd.1.topic_id = t)) &&
  (!p_only_active || cd.1.is_active)

/-- Tag each joined row with its scan position. -/
def withIdx : Nat → List (ChunkRow × DocumentRow) → List MatchRow
  | _, [] => []
  | n, cd :: rest => { chunk := cd.1, doc := cd.2, idx := n } :: withIdx (n + 1) rest

/-- A deterministic executable resolution of
`order by c.embedding <=> query_embedding`: distance ascending with scan
position as tie-break.  The SQL itself fixes no tie order —
`IsMatchResult` below captures exactly what it guarantees — and this key
picks one admissible ordering so the pipeline can be run on concrete
inputs.  `op` stands for the pgvector cosine-distance operator `<=>`. -/
def rowLE (op : List ℚ → List ℚ → ℚ) (q : List ℚ) (a b : MatchRow) : Prop :=
  op a.chunk.embedding q < op b.chunk.embedding q ∨
    (op a.chunk.embedding q = op b.chunk.embedding q ∧ a.idx ≤ b.idx)

instance (op : List ℚ → List ℚ → ℚ) (q : List ℚ) : DecidableRel (rowLE op q) :=
  fun a b => by unfold rowLE; infer_instance

instance (op : List ℚ → List ℚ → ℚ) (q : List ℚ) : IsTotal MatchRow (rowLE op q) where
  total a b := by
    unfold rowLE
    rcases lt_trichotomy (op a.chunk.embedding q) (op b.chunk.embedding q) with h | h | h
    · exact Or.inl (Or.inl h)
    · rcases Nat.le_total a.idx b.idx with hi | hi
      · exact Or.inl (Or.inr ⟨h, hi⟩)
      · exact Or.inr (Or.inr ⟨h.symm, hi⟩)
    · exact Or.inr (Or.inl h)

instance (op : List ℚ → List ℚ → ℚ) (q : List ℚ) : IsTrans MatchRow (rowLE op q) where
  trans a b c hab hbc := by
    unfold rowLE at hab hbc ⊢
    rcases hab with hab | ⟨hab, hiab⟩
    · rcases hbc with hbc | ⟨hbc, _⟩
      · exact Or.inl (hab.trans hbc)
      · exact Or.inl (hbc ▸ hab)
    · rcases hbc with hbc | ⟨hbc, hibc⟩
      · exact Or.inl (hab ▸ hbc)
      · exact Or.inr ⟨hab.trans hbc, hiab.trans hibc⟩

/-- `public.match_documents` (`part_000` lines 449-467), kept at the level of
joined rows so provenance (the originating chunk) stays visible: join,
filter, order by distance ascending, `limit match_count`.  This is the
executable pipeline under the `rowLE` resolution of the ORDER BY ties; it is
one admissible result in the sense of `IsMatchResult` below. -/
def match_documents_rows (op : List ℚ → List ℚ → ℚ) (query_embedding : List ℚ)
    (match_count : Nat) (p_topic_id : Option Nat) (p_only_active : Bool)
    (chunks : List ChunkRow) (docs : List DocumentRow) : List MatchRow :=
  ((withIdx 0 ((matchJoin chunks docs).filter
      (matchWhere p_topic_id p_only_active))).insertionSort
    (rowLE op query_embedding)).take match_count

/-- The SELECT clause of `match_documents`:
`d.id, c.content, c.metadata, 1 - (c.embedding <=> query_embedding)`. -/
def searchProj (op : List ℚ → List ℚ → ℚ) (q : List ℚ) (r : MatchRow) :
    SearchResult :=
  { document_id := r.doc.id, content := r.chunk.content,
    metadata := r.chunk.metadata, similarity := 1 - op r.chunk.embedding q }

/-- `public.match_documents` as the caller sees it. -/
def match_documents (op : List ℚ → List ℚ → ℚ) (query_embedding : List ℚ)
    (match_count : Nat) (p_topic_id : Option Nat) (p_only_active : Bool)
    (chunks : List ChunkRow) (docs : List DocumentRow) : List SearchResult :=
  (match_documents_rows op query_embedding match_count p_topic_id p_only_active
    chunks docs).map (searchProj op query_embedding)

/-- Rows produced by `withIdx` come from the underlying joined list. -/
theorem mem_withIdx (l : List (ChunkRow × DocumentRow)) :
    ∀ (n : Nat) (r : MatchRow), r ∈ withIdx n l → (r.chunk, r.doc) ∈ l := by
  induction l with
  | nil => intro n r h; exact absurd h (List.not_mem_nil r)
  | cons cd rest ih =>
    intro n r h
    rcases List.mem_cons.mp h with h1 | h2
    · subst h1; exact List.mem_cons_self cd rest
    · exact List.mem_cons_of_mem cd (ih (n + 1) r h2)

/-- Every row of the sorted, limited result comes from the filtered join. -/
theorem match_documents_rows_source (op : List ℚ → List ℚ → ℚ) (q : List ℚ)
    (n : Nat) (pt : Option Nat) (pa : Bool) (chunks : List ChunkRow)
    (docs : List DocumentRow) :
    ∀ r ∈ match_documents_rows op q n pt pa chunks docs,
      (r.chunk, r.doc) ∈ matchJoin chunks docs ∧
      matchWhere pt pa (r.chunk, r.doc) = true := by
  intro r hr
  unfold match_documents_rows at hr
  have h1 : r ∈ (withIdx 0 ((matchJoin chunks docs).filter
      (matchWhere pt pa))).insertionSort (rowLE op q) :=
    (List.take_sublist n _).subset hr
  have h2 : r ∈ withIdx 0 ((matchJoin chunks docs).filter (matchWhere pt pa)) :=
    (List.mem_insertionSort (rowLE op q)).mp h1
  have h3 := mem_withIdx _ 0 r h2
  exact ⟨(List.mem_filter.mp h3).1, (List.mem_filter.mp h3).2⟩

/-- C2: a search with a non-null `topic_id = T` only ever returns rows whose
originating chunk has `topic_id = T`, whatever the similarities elsewhere;
and when `p_only_active = true` (the declared default) every returned row
comes from a chunk with `is_active = true`.  The caller-facing result is the
row-for-row projection of these provenance rows. -/
theorem C2_search_scoped_to_topic_and_active (op : List ℚ → List ℚ → ℚ)
    (q : List ℚ) (n T : Nat) (pa : Bool) (chunks : List ChunkRow)
    (docs : List DocumentRow) :
    (∀ r ∈ match_documents_rows op q n (some T) pa chunks docs,
        r.chunk.topic_id = T ∧ (pa = true → r.chunk.is_active = true)) ∧
    match_documents op q n (some T) pa chunks docs =
      (match_documents_rows op q n (some T) pa chunks docs).map (searchProj op q) := by
  refine ⟨?_, rfl⟩
  intro r hr
  have hw := (match_documents_rows_source op q n (some T) pa chunks docs r hr).2
  unfold matchWhere at hw
  rw [Bool.and_eq_true] at hw
  rcases hw with ⟨ht, ha⟩
  refine ⟨of_decide_eq_true ht, ?_⟩
  intro hpa
  subst hpa
  rcases Bool.or_eq_true_iff.mp ha with hfalse | htrue
  · exact absurd hfalse (by decide)
  · exact htrue

/-- What the SQL of `match_documents` guarantees about row order: the output
is some permutation of the filtered join sorted by
`c.embedding <=> query_embedding` ascending, truncated to `match_count`.
The ORDER BY names no second key, so rows with equal distance may come back
in any order — Postgres promises no sort stability; `out` ranges over every
admissible result. -/
def IsMatchResult (op : List ℚ → List ℚ → ℚ) (q : List ℚ) (mc : Nat)
    (pt : Option Nat) (pa : Bool) (chunks : List ChunkRow)
    (docs : List DocumentRow) (out : List MatchRow) : Prop :=
  ∃ sorted : List MatchRow,
    List.Perm sorted
      (withIdx 0 ((matchJoin chunks docs).filter (matchWhere pt pa))) ∧
    List.Pairwise (fun a b =>
      op a.chunk.embedding q ≤ op b.chunk.embedding q) sorted ∧
    out = sorted.take mc

/-- A concrete stand-in for the abstract `<=>` operator: squared Euclidean
distance.  The counterexample below only needs the two stored embeddings to
be identical, so every operator — pgvector's cosine distance included —
assigns them equal distance. -/
def exOp : List ℚ → List ℚ → ℚ := fun a b =>
  (a.zip b).foldl (fun acc p => acc + (p.1 - p.2) * (p.1 - p.2)) 0

/-- Two chunks with identical embeddings under one document. -/
def c8ChunkA : ChunkRow :=
  { id := 1, document_id := 10, topic_id := 7, content := "A",
    embedding := [1], is_active := true, metadata := "" }

def c8ChunkB : ChunkRow :=
  { id := 2, document_id := 10, topic_id := 7, content := "B",
    embedding := [1], is_active := true, metadata := "" }

def c8Doc : DocumentRow := { id := 10, topic_id := 7, topic_file_id := 1 }

def c8RowA : MatchRow := { chunk := c8ChunkA, doc := c8Doc, idx := 0 }

def c8RowB : MatchRow := { chunk := c8ChunkB, doc := c8Doc, idx := 1 }

/-- C8 fails on the code for its tie-break conjunct: the SQL orders only by
distance, so with two equal-similarity chunks the reversed-scan-order output
`[c8RowB, c8RowA]` is an admissible result of `match_documents` — equal
similarities presented out of insertion order. -/
theorem C8_counterexample :
    IsMatchResult exOp [0] 10 (some 7) true [c8ChunkA, c8ChunkB] [c8Doc]
      [c8RowB, c8RowA] ∧
    1 - exOp c8RowB.chunk.embedding [0] = 1 - exOp c8RowA.chunk.embedding [0] ∧
    ¬ List.Pairwise (fun a b =>
        exOp a.chunk.embedding [0] = exOp b.chunk.embedding [0] →
          a.idx ≤ b.idx) [c8RowB, c8RowA] := by
  refine ⟨⟨[c8RowB, c8RowA], ?_, ?_, rfl⟩, rfl, ?_⟩
  · exact List.Perm.swap c8RowA c8RowB []
  · refine List.Pairwise.cons ?_ (List.pairwise_singleton _ _)
    intro b hb
    rw [List.mem_singleton.mp hb]
    exact le_of_eq rfl
  · intro h
    have hrel := (List.pairwise_cons.mp h).1 c8RowA (List.mem_singleton.mpr rfl)
    exact absurd (hrel rfl) (by decide)

/-- C8 (amended): for every admissible result of `match_documents`, each
returned row's similarity equals `1 -` the distance the `<=>` operator
reports between the stored chunk embedding and the query embedding, results
are ordered by that similarity descending, and every row comes from the
filtered join; the SQL fixes no tie order, so rows with equal similarity may
appear in any order.  The executable `match_documents_rows` pipeline is one
admissible result. -/
theorem C8_similarity_descending_no_tie_guarantee
    (op : List ℚ → List ℚ → ℚ) (q : List ℚ) (mc : Nat) (pt : Option Nat)
    (pa : Bool) (chunks : List ChunkRow) (docs : List DocumentRow)
    (out : List MatchRow)
    (hout : IsMatchResult op q mc pt pa chunks docs out) :
    (∀ res ∈ out.map (searchProj op q), ∃ r ∈ out,
        res = searchProj op q r ∧
        res.similarity = 1 - op r.chunk.embedding q) ∧
    List.Pairwise (fun a b =>
        1 - op b.chunk.embedding q ≤ 1 - op a.chunk.embedding q) out ∧
    (∀ r ∈ out, (r.chunk, r.doc) ∈ matchJoin chunks docs ∧
        matchWhere pt pa (r.chunk, r.doc) = true) ∧
    IsMatchResult op q mc pt pa chunks docs
      (match_documents_rows op q mc pt pa chunks docs) := by
  rcases hout with ⟨sorted, hperm, hsorted, hout⟩
  subst hout
  refine ⟨?_, ?_, ?_, ?_⟩
  · intro res hres
    rcases List.mem_map.mp hres with ⟨r, hr, rfl⟩
    exact ⟨r, hr, rfl, rfl⟩
  · exact (hsorted.sublist (List.take_sublist mc sorted)).imp
      (fun h => sub_le_sub_left h 1)
  · intro r hr
    have h1 : r ∈ sorted := (List.take_sublist mc sorted).subset hr
    have h2 : r ∈ withIdx 0 ((matchJoin chunks docs).filter (matchWhere pt pa)) :=
      hperm.mem_iff.mp h1
    have h3 := mem_withIdx _ 0 r h2
    exact ⟨(List.mem_filter.mp h3).1, (List.mem_filter.mp h3).2⟩
  · refine ⟨(withIdx 0 ((matchJoin chunks docs).filter
        (matchWhere pt pa))).insertionSort (rowLE op q),
      List.perm_insertionSort _ _, ?_, rfl⟩
    have hs : List.Pairwise (rowLE op q)
        ((withIdx 0 ((matchJoin chunks docs).filter
          (matchWhere pt pa))).insertionSort (rowLE op q)) :=
      List.sorted_insertionSort (rowLE op q) _
    refine hs.imp ?_
    intro a b hab
    rcases hab with h | ⟨h, _⟩
    · exact h.le
    · exact le_of_eq h

/-- The single admissible result over the one-chunk store `exStore`. -/
def c8wRow : MatchRow :=
  { chunk := { id := 100, document_id := 10, topic_id := 7, content := "intro",
               embedding := [], is_active := true, metadata := "" }
    doc := { id := 10, topic_id := 7, topic_file_id := 1 }
    idx := 0 }

theorem C8_similarity_descending_no_tie_guarantee_witness :
    IsMatchResult exOp [] 10 (some 7) true exStore.chunks exStore.documents
      [c8wRow] ∧
    ((∀ res ∈ [c8wRow].map (searchProj exOp []), ∃ r ∈ [c8wRow],
        res = searchProj exOp [] r ∧
        res.similarity = 1 - exOp r.chunk.embedding []) ∧
     List.Pairwise (fun a b =>
        1 - exOp b.chunk.embedding [] ≤ 1 - exOp a.chunk.embedding []) [c8wRow] ∧
     (∀ r ∈ [c8wRow], (r.chunk, r.doc) ∈ matchJoin exStore.chunks exStore.documents ∧
        matchWhere (some 7) true (r.chunk, r.doc) = true) ∧
     IsMatchResult exOp [] 10 (some 7) true exStore.chunks exStore.documents
       (match_documents_rows exOp [] 10 (some 7) true exStore.chunks
         exStore.documents)) :=
  ⟨⟨[c8wRow], List.Perm.refl _, List.pairwise_singleton _ _, rfl⟩,
   C8_similarity_descending_no_tie_guarantee exOp [] 10 (some 7) true
     exStore.chunks exStore.documents [c8wRow]
     ⟨[c8wRow], List.Perm.refl _, List.pairwise_singleton _ _, rfl⟩⟩

/-- A row of `public.categories`. -/
structure CategoryRow where
  id : Nat
  user_id : Nat
  name : String
deriving DecidableEq, Repr

/-- A row of `public.topics` (the columns the pruning logic reads). -/
structure TopicRow where
  id : Nat
  user_id : Nat
  category_id : Option Nat
  name : String
deriving DecidableEq, Repr

/-- The taxonomy tables. -/
structure TaxonomyStore where
  categories : List CategoryRow
  topics : List TopicRow
deriving DecidableEq, Repr

/-- `public.prune_orphan_category` (`part_000` lines 424-432): if the old row
had a category and no topic references it any more, delete the category row
owned by the old row's user. -/
def prune_orphan_category (old_category_id : Option Nat) (old_user_id : Nat)
    (s : TaxonomyStore) : TaxonomyStore :=
  match old_category_id with
  | none => s
  | some cid =>
    if s.topics.any fun t => t.category_id = some cid then s
    else { s with categories := s.categories.filter fun c =>
            !(c.id = cid && c.user_id = old_user_id) }

/-- `delete from public.topics where id = tid`, firing the AFTER DELETE
trigger `t_topics_prune_category_after_delete` (`part_000` lines 434-436)
once per deleted row, on the post-delete state. -/
def deleteTopic (s : TaxonomyStore) (tid : Nat) : TaxonomyStore :=
  let victims := s.topics.filter fun t => t.id = tid
  let s1 : TaxonomyStore :=
    { s with topics := s.topics.filter fun t => !(t.id = tid) }
  victims.foldl
    (fun st old => prune_orphan_category old.category_id old.user_id st) s1

/-- `update public.topics set category_id = newCat where id = tid`, firing
`t_topics_prune_category_after_update` (`part_000` lines 438-442) for each
row whose old category differs from the new one. -/
def repointTopic (s : TaxonomyStore) (tid : Nat) (newCat : Option Nat) :
    TaxonomyStore :=
  let victims := s.topics.filter fun t => t.id = tid
  let s1 : TaxonomyStore :=
    { s with topics := s.topics.map fun t =>
        if t.id = tid then { t with category_id := newCat } else t }
  victims.foldl
    (fun st old =>
      if old.category_id ≠ newCat then
        prune_orphan_category old.category_id old.user_id st
      else st) s1


/-- Equation: pruning with no old category is a no-op. -/
theorem prune_orphan_category_none (u : Nat) (st : TaxonomyStore) :
    prune_orphan_category none u st = st := rfl

/-- Equation: pruning when some topic still references the category is a
no-op. -/
theorem prune_orphan_category_referenced (cid u : Nat) (st : TaxonomyStore)
    (h : (st.topics.any fun t => t.category_id = some cid) = true) :
    prune_orphan_category (some cid) u st = st := by
  simp only [prune_orphan_category]
  rw [if_pos h]

/-- Equation: pruning an unreferenced category deletes the owner's category
rows with that id. -/
theorem prune_orphan_category_orphan (cid u : Nat) (st : TaxonomyStore)
    (h : (st.topics.any fun t => t.category_id = some cid) = false) :
    prune_orphan_category (some cid) u st =
      { st with categories := st.categories.filter fun c =>
          !(c.id = cid && c.user_id = u) } := by
  simp only [prune_orphan_category]
  rw [if_neg (fun hcon => by rw [h] at hcon; exact Bool.false_ne_true hcon)]

/-- The pruning trigger never touches the `topics` table. -/
theorem prune_orphan_category_topics (co : Option Nat) (u : Nat)
    (st : TaxonomyStore) :
    (prune_orphan_category co u st).topics = st.topics := by
  cases co with
  | none => rw [prune_orphan_category_none]
  | some cid =>
    cases h : (st.topics.any fun t => t.category_id = some cid) with
    | true => rw [prune_orphan_category_referenced cid u st h]
    | false => rw [prune_orphan_category_orphan cid u st h]

/-- C5: deleting the last topic referencing a category removes the category
(through the owner-matched trigger delete); deleting one of several
referencing topics leaves the category table untouched; and a category still
referenced by a surviving topic is never deleted by the trigger. -/
theorem C5_orphan_category_pruning (s : TaxonomyStore) (tid : Nat)
    (t : TopicRow) (hvict : s.topics.filter (fun x => x.id = tid) = [t]) :
    (∀ cid, t.category_id = some cid →
      (∀ x ∈ s.topics, x.category_id = some cid → x.id = tid) →
      (∀ c ∈ s.categories, c.id = cid → c.user_id = t.user_id) →
      ∀ c ∈ (deleteTopic s tid).categories, c.id ≠ cid) ∧
    (∀ cid, t.category_id = some cid →
      (∃ x ∈ s.topics, x.id ≠ tid ∧ x.category_id = some cid) →
      (deleteTopic s tid).categories = s.categories) ∧
    (∀ c ∈ s.categories,
      ((deleteTopic s tid).topics.any fun x => x.category_id = some c.id) = true →
      c ∈ (deleteTopic s tid).categories) ∧
    (∀ cid (newCat : Option Nat), t.category_id = some cid → newCat ≠ some cid →
      (∀ x ∈ s.topics, x.category_id = some cid → x.id = tid) →
      (∀ c ∈ s.categories, c.id = cid → c.user_id = t.user_id) →
      ∀ c ∈ (repointTopic s tid newCat).categories, c.id ≠ cid) := by
  have hdel : deleteTopic s tid =
      prune_orphan_category t.category_id t.user_id
        { s with topics := s.topics.filter fun x => !(x.id = tid) } := by
    unfold deleteTopic
    rw [hvict]
    rfl
  refine ⟨?_, ?_, ?_, ?_⟩
  · intro cid hcid honly huser c hc hcdel
    rw [hdel, hcid] at hc
    have hnone : (((s.topics.filter fun x => !(x.id = tid))).any
        fun x => x.category_id = some cid) = false := by
      cases hany : (((s.topics.filter fun x => !(x.id = tid))).any
          fun x => x.category_id = some cid) with
      | false => rfl
      | true =>
        rcases List.any_eq_true.mp hany with ⟨x, hx, hxc⟩
        rcases List.mem_filter.mp hx with ⟨hxs, hxneq⟩
        have hxid : x.id = tid := honly x hxs (of_decide_eq_true hxc)
        rw [Bool.not_eq_true', decide_eq_false_iff_not] at hxneq
        exact absurd hxid hxneq
    rw [prune_orphan_category_orphan cid t.user_id _ hnone] at hc
    have hmem := List.mem_filter.mp hc
    have hkeep := hmem.2
    rw [Bool.not_eq_true', Bool.and_eq_false_iff] at hkeep
    rcases hkeep with h1 | h2
    · rw [decide_eq_false_iff_not] at h1; exact h1 hcdel
    · rw [decide_eq_false_iff_not] at h2
      exact h2 (huser c hmem.1 hcdel)
  · intro cid hcid hother
    rw [hdel, hcid]
    rcases hother with ⟨x, hxs, hxneq, hxc⟩
    have hany : (((s.topics.filter fun y => !(y.id = tid))).any
        fun y => y.category_id = some cid) = true := by
      refine List.any_eq_true.mpr
        ⟨x, List.mem_filter.mpr ⟨hxs, ?_⟩, decide_eq_true hxc⟩
      rw [Bool.not_eq_true', decide_eq_false_iff_not]
      exact hxneq
    rw [prune_orphan_category_referenced cid t.user_id _ hany]
  · intro c hc href
    rw [hdel] at href ⊢
    rw [prune_orphan_category_topics] at href
    cases hco : t.category_id with
    | none => rw [prune_orphan_category_none]; exact hc
    | some cid =>
      cases hany : ((({ s with topics := s.topics.filter fun x =>
          !(x.id = tid) } : TaxonomyStore).topics.any
            fun y => y.category_id = some cid)) with
      | true =>
        rw [prune_orphan_category_referenced cid t.user_id _ hany]
        exact hc
      | false =>
        rw [prune_orphan_category_orphan cid t.user_id _ hany]
        refine List.mem_filter.mpr ⟨hc, ?_⟩
        rw [Bool.not_eq_true', Bool.and_eq_false_iff]
        left
        rw [decide_eq_false_iff_not]
        intro hcontra
        rw [hcontra] at href
        rw [hany] at href
        exact Bool.false_ne_true href
  · intro cid newCat hcid hnewcat honly huser c hc hcdel
    have hne' : t.category_id ≠ newCat := by
      rw [hcid]
      exact fun hcon => hnewcat hcon.symm
    have hrep : repointTopic s tid newCat =
        prune_orphan_category t.category_id t.user_id
          { s with topics := s.topics.map fun x =>
              if x.id = tid then { x with category_id := newCat } else x } := by
      unfold repointTopic
      rw [hvict]
      simp only [List.foldl_cons, List.foldl_nil]
      rw [if_pos hne']
    rw [hrep, hcid] at hc
    have hnone : ((s.topics.map fun x =>
        if x.id = tid then { x with category_id := newCat } else x).any
          fun y => y.category_id = some cid) = false := by
      cases hany : ((s.topics.map fun x =>
          if x.id = tid then { x with category_id := newCat } else x).any
            fun y => y.category_id = some cid) with
      | false => rfl
      | true =>
        rcases List.any_eq_true.mp hany with ⟨y, hy, hyc⟩
        rcases List.mem_map.mp hy with ⟨x₀, hx₀, rfl⟩
        by_cases hx : x₀.id = tid
        · rw [if_pos hx] at hyc
          exact absurd (of_decide_eq_true hyc) (fun hcon => hnewcat hcon)
        · rw [if_neg hx] at hyc
          exact absurd (honly x₀ hx₀ (of_decide_eq_true hyc)) hx
    rw [prune_orphan_category_orphan cid t.user_id _ hnone] at hc
    have hmem := List.mem_filter.mp hc
    have hkeep := hmem.2
    rw [Bool.not_eq_true', Bool.and_eq_false_iff] at hkeep
    rcases hkeep with h1 | h2
    · rw [decide_eq_false_iff_not] at h1; exact h1 hcdel
    · rw [decide_eq_false_iff_not] at h2
      exact h2 (huser c hmem.1 hcdel)

/-- One category referenced by a single topic. -/
def exTax1 : TaxonomyStore :=
  { categories := [{ id := 5, user_id := 3, name := "maths" }]
    topics := [{ id := 1, user_id := 3, category_id := some 5, name := "algebra" }] }

/-- One category referenced by two topics. -/
def exTax2 : TaxonomyStore :=
  { categories := [{ id := 5, user_id := 3, name := "maths" }]
    topics := [{ id := 1, user_id := 3, category_id := some 5, name := "algebra" },
               { id := 2, user_id := 3, category_id := some 5, name := "calculus" }] }

theorem C5_orphan_category_pruning_witness :
    (∀ c ∈ (deleteTopic exTax1 1).categories, c.id ≠ 5) ∧
    (deleteTopic exTax2 1).categories = exTax2.categories :=
  ⟨(C5_orphan_category_pruning exTax1 1
      { id := 1, user_id := 3, category_id := some 5, name := "algebra" }
      (by decide)).1 5 rfl (by decide) (by decide),
   (C5_orphan_category_pruning exTax2 1
      { id := 1, user_id := 3, category_id := some 5, name := "algebra" }
      (by decide)).2.1 5 rfl
     ⟨{ id := 2, user_id := 3, category_id := some 5, name := "calculus" },
       by decide, by decide, rfl⟩⟩

/-- A row of `public.quiz_questions`. -/
structure QuizQuestionRow where
  id : Nat
  quiz_id : Nat
  question : String
  order_index : Nat
deriving DecidableEq, Repr

/-- A row of `public.quiz_options`. -/
structure QuizOptionRow where
  id : Nat
  question_id : Nat
  option_text : String
  is_correct : Bool
deriving DecidableEq, Repr

/-- A row of `public.quiz_attempts` (the columns used here). -/
structure QuizAttemptRow where
  id : Nat
  quiz_id : Nat
  user_id : Nat
  submitted_at : Option Nat
  score_percent : Option ℚ
deriving DecidableEq, Repr

/-- A row of `public.attempt_answers`. -/
structure AttemptAnswerRow where
  attempt_id : Nat
  question_id : Nat
  selected_option_id : Nat
  is_correct : Bool
deriving DecidableEq, Repr

/-- The quiz content tables. -/
structure QuizStore where
  questions : List QuizQuestionRow
  options : List QuizOptionRow
  attempts : List QuizAttemptRow
  answers : List AttemptAnswerRow
deriving DecidableEq, Repr

/-- `insert into public.quiz_options`, subject to the primary key and to the
partial unique index `uq_correct_option_per_question` (`part_000` line 236):
at most one `is_correct = true` row may exist per `question_id`. -/
def insertQuizOption (table : List QuizOptionRow) (row : QuizOptionRow) :
    Except String (List QuizOptionRow) :=
  if table.any fun o => o.id = row.id then
    Except.error "duplicate key value violates unique constraint quiz_options_pkey"
  else if row.is_correct
      && table.any fun o => o.question_id = row.question_id && o.is_correct then
    Except.error "duplicate key value violates unique index uq_correct_option_per_question"
  else
    Except.ok (table ++ [row])

/-- C4: for a question that already has an option with `is_correct = true`,
inserting a second correct option for the same question fails at the write
boundary — no success result exists, so the write is neither silently
accepted nor allowed to override the existing correct option. -/
theorem C4_second_correct_option_rejected (table : List QuizOptionRow)
    (row o : QuizOptionRow) (ho : o ∈ table)
    (hq : o.question_id = row.question_id) (hoc : o.is_correct = true)
    (hrc : row.is_correct = true) :
    (∃ msg, insertQuizOption table row = Except.error msg) ∧
    ∀ t', insertQuizOption table row ≠ Except.ok t' := by
  have herr : ∃ msg, insertQuizOption table row = Except.error msg := by
    unfold insertQuizOption
    by_cases hpk : (table.any fun o => o.id = row.id) = true
    · rw [if_pos hpk]
      exact ⟨_, rfl⟩
    · rw [if_neg hpk]
      have hdup : (row.is_correct
          && table.any fun x => x.question_id = row.question_id && x.is_correct) = true := by
        rw [Bool.and_eq_true]
        refine ⟨hrc, List.any_eq_true.mpr ⟨o, ho, ?_⟩⟩
        rw [Bool.and_eq_true]
        exact ⟨decide_eq_true hq, hoc⟩
      rw [if_pos hdup]
      exact ⟨_, rfl⟩
  refine ⟨herr, ?_⟩
  intro t' hok
  rcases herr with ⟨msg, herr⟩
  rw [herr] at hok
  exact Except.noConfusion hok

theorem C4_second_correct_option_rejected_witness :
    (∃ msg, insertQuizOption
        [{ id := 1, question_id := 9, option_text := "A", is_correct := true }]
        { id := 2, question_id := 9, option_text := "B", is_correct := true } =
      Except.error msg) ∧
    ∀ t', insertQuizOption
        [{ id := 1, question_id := 9, option_text := "A", is_correct := true }]
        { id := 2, question_id := 9, option_text := "B", is_correct := true } ≠
      Except.ok t' :=
  C4_second_correct_option_rejected _ _
    { id := 1, question_id := 9, option_text := "A", is_correct := true }
    (by decide) rfl rfl rfl

/-- `delete from public.attempt_answers aa using public.quiz_questions qq
where aa.question_id = qq.id and qq.quiz_id = p_quiz_id`
(`part_000` lines 490-492). -/
def deleteAnswersOfQuizQuestions (qid : Nat) (s : QuizStore) : QuizStore :=
  { s with answers := s.answers.filter fun aa =>
      !(s.questions.any fun qq => aa.question_id = qq.id && qq.quiz_id = qid) }

/-- `delete from public.quiz_attempts qa where qa.quiz_id = p_quiz_id`
(line 493); the schema's `attempt_answers.attempt_id ... on delete cascade`
removes the answers of the deleted attempts with it. -/
def deleteAttemptsOfQuiz (qid : Nat) (s : QuizStore) : QuizStore :=
  { s with
    attempts := s.attempts.filter fun qa => !(qa.quiz_id = qid)
    answers := s.answers.filter fun aa =>
      !(s.attempts.any fun qa => qa.id = aa.attempt_id && qa.quiz_id = qid) }

/-- True when a surviving answer still references an option of the quiz, in
which case `attempt_answers.selected_option_id ... on delete restrict`
blocks the option delete. -/
def optionsRestrictViolated (qid : Nat) (s : QuizStore) : Bool :=
  s.answers.any fun aa => s.options.any fun o =>
    o.id = aa.selected_option_id
      && (s.questions.any fun qq => o.question_id = qq.id && qq.quiz_id = qid)

/-- `delete from public.quiz_options qo using public.quiz_questions qq2
where qo.question_id = qq2.id and qq2.quiz_id = p_quiz_id` (lines 494-496),
fallible through the `on delete restrict` foreign key. -/
def deleteOptionsOfQuiz (qid : Nat) (s : QuizStore) : Except String QuizStore :=
  if optionsRestrictViolated qid s then
    Except.error "delete on quiz_options violates restrict foreign key on attempt_answers"
  else
    Except.ok { s with options := s.options.filter fun o =>
        !(s.questions.any fun qq => o.question_id = qq.id && qq.quiz_id = qid) }

/-- `delete from public.quiz_questions qq3 where qq3.quiz_id = p_quiz_id`
(line 497), with the schema's cascades on `quiz_options.question_id` and
`attempt_answers.question_id`. -/
def deleteQuestionsOfQuiz (qid : Nat) (s : QuizStore) : QuizStore :=
  { s with
    questions := s.questions.filter fun qq => !(qq.quiz_id = qid)
    options := s.options.filter fun o =>
      !(s.questions.any fun qq => qq.quiz_id = qid && qq.id = o.question_id)
    answers := s.answers.filter fun aa =>
      !(s.questions.any fun qq => qq.quiz_id = qid && qq.id = aa.question_id) }

/-- `public.delete_quiz_content` (`part_000` lines 487-498): the four deletes
in dependency order, inside the caller's transaction. -/
def delete_quiz_content (qid : Nat) (s : QuizStore) : Except String QuizStore :=
  match deleteOptionsOfQuiz qid
      (deleteAttemptsOfQuiz qid (deleteAnswersOfQuizQuestions qid s)) with
  | Except.error e => Except.error e
  | Except.ok s3 => Except.ok (deleteQuestionsOfQuiz qid s3)

/-- Modelled from the spec: the backend quiz-regeneration step — absent from
the sources, which hold only `delete_quiz_content` and its HTTP caller —
runs `delete_quiz_content` and inserts the freshly generated questions and
options inside the same transaction, so only the pre- and post-transaction
states are observable. -/
def regenerate_quiz_content (qid : Nat) (newQs : List QuizQuestionRow)
    (newOs : List QuizOptionRow) (s : QuizStore) : Except String QuizStore :=
  match delete_quiz_content qid s with
  | Except.error e => Except.error e
  | Except.ok s4 => Except.ok
      { s4 with questions := s4.questions ++ newQs,
                options := s4.options ++ newOs }

/-- Inversion for a successful option delete: the restrict key was not
violated and the result drops exactly the quiz's options. -/
theorem deleteOptionsOfQuiz_ok (qid : Nat) (s2 s3 : QuizStore)
    (h : deleteOptionsOfQuiz qid s2 = Except.ok s3) :
    optionsRestrictViolated qid s2 = false ∧
    s3 = { s2 with options := s2.options.filter fun o =>
        !(s2.questions.any fun qq => o.question_id = qq.id && qq.quiz_id = qid) } := by
  unfold deleteOptionsOfQuiz at h
  by_cases hv : optionsRestrictViolated qid s2 = true
  · rw [if_pos hv] at h
    exact Except.noConfusion h
  · rw [if_neg hv] at h
    injection h with h'
    exact ⟨Bool.not_eq_true _ ▸ Bool.eq_false_iff.mpr hv, h'.symm⟩

/-- Inversion for a successful regeneration: the deletes succeeded and the
result is the wiped store plus the new generation. -/
theorem regenerate_quiz_content_ok (qid : Nat) (newQs : List QuizQuestionRow)
    (newOs : List QuizOptionRow) (s s' : QuizStore)
    (h : regenerate_quiz_content qid newQs newOs s = Except.ok s') :
    ∃ s3, deleteOptionsOfQuiz qid
        (deleteAttemptsOfQuiz qid (deleteAnswersOfQuizQuestions qid s)) =
          Except.ok s3 ∧
      s' = { deleteQuestionsOfQuiz qid s3 with
              questions := (deleteQuestionsOfQuiz qid s3).questions ++ newQs,
              options := (deleteQuestionsOfQuiz qid s3).options ++ newOs } := by
  unfold regenerate_quiz_content delete_quiz_content at h
  cases hopt : deleteOptionsOfQuiz qid
      (deleteAttemptsOfQuiz qid (deleteAnswersOfQuizQuestions qid s)) with
  | error e =>
    rw [hopt] at h
    exact Except.noConfusion h
  | ok s3 =>
    rw [hopt] at h
    injection h with h'
    exact ⟨s3, rfl, h'.symm⟩


/-- C3: a successful regeneration (one transaction: the four deletes of
`delete_quiz_content` in dependency order, then the inserts) leaves no
attempt of the quiz, hence no attempt answer tied to the quiz referencing a
question outside the current set; it preserves the global
answer-to-question foreign key; and every question of the quiz in the final
state belongs to the new generation — no row mixes two generations. -/
theorem C3_quiz_regeneration_atomic (qid : Nat) (newQs : List QuizQuestionRow)
    (newOs : List QuizOptionRow) (s s' : QuizStore)
    (hok : regenerate_quiz_content qid newQs newOs s = Except.ok s') :
    (∀ qa ∈ s'.attempts, qa.quiz_id ≠ qid) ∧
    (∀ aa ∈ s'.answers,
       (s'.attempts.any fun qa => qa.id = aa.attempt_id && qa.quiz_id = qid) = true →
       (s'.questions.any fun qq => qq.quiz_id = qid && qq.id = aa.question_id) = true) ∧
    ((∀ aa ∈ s.answers, ∃ qq ∈ s.questions, qq.id = aa.question_id) →
      ∀ aa ∈ s'.answers, ∃ qq ∈ s'.questions, qq.id = aa.question_id) ∧
    (∀ qq ∈ s'.questions, qq.quiz_id = qid → qq ∈ newQs) := by
  rcases regenerate_quiz_content_ok qid newQs newOs s s' hok with ⟨s3, hopt, hs'⟩
  rcases deleteOptionsOfQuiz_ok qid _ s3 hopt with ⟨_, hs3⟩
  subst hs3
  subst hs'
  have hatt : ∀ qa ∈ (s.attempts.filter fun qa => !(qa.quiz_id = qid)),
      qa.quiz_id ≠ qid := by
    intro qa hqa
    have hp := (List.mem_filter.mp hqa).2
    rw [Bool.not_eq_true', decide_eq_false_iff_not] at hp
    exact hp
  refine ⟨?_, ?_, ?_, ?_⟩
  · intro qa hqa
    exact hatt qa hqa
  · intro aa _ hany
    rcases List.any_eq_true.mp hany with ⟨qa, hqa, hp⟩
    rw [Bool.and_eq_true] at hp
    exact absurd (of_decide_eq_true hp.2) (hatt qa hqa)
  · intro hfk aa haa
    have haa2 : aa ∈ (((s.answers.filter fun aa =>
          !(s.questions.any fun qq => aa.question_id = qq.id && qq.quiz_id = qid)).filter
            fun aa => !(s.attempts.any fun qa =>
              qa.id = aa.attempt_id && qa.quiz_id = qid)).filter
          fun aa => !(s.questions.any fun qq =>
            qq.quiz_id = qid && qq.id = aa.question_id)) := haa
    have hbase := (List.mem_filter.mp ((List.mem_filter.mp
      ((List.mem_filter.mp haa2).1)).1)).1
    have hp1 := (List.mem_filter.mp ((List.mem_filter.mp
      ((List.mem_filter.mp haa2).1)).1)).2
    rcases hfk aa hbase with ⟨qq0, hqq0, hq0id⟩
    have hq0quiz : qq0.quiz_id ≠ qid := by
      intro hcontra
      rw [Bool.not_eq_true'] at hp1
      have : (s.questions.any fun qq =>
          aa.question_id = qq.id && qq.quiz_id = qid) = true := by
        refine List.any_eq_true.mpr ⟨qq0, hqq0, ?_⟩
        rw [Bool.and_eq_true]
        exact ⟨decide_eq_true hq0id.symm, decide_eq_true hcontra⟩
      rw [hp1] at this
      exact Bool.false_ne_true this
    show ∃ qq ∈ (s.questions.filter fun qq => !(qq.quiz_id = qid)) ++ newQs,
      qq.id = aa.question_id
    refine ⟨qq0, List.mem_append.mpr (Or.inl ?_), hq0id⟩
    refine List.mem_filter.mpr ⟨hqq0, ?_⟩
    rw [Bool.not_eq_true', decide_eq_false_iff_not]
    exact hq0quiz
  · intro qq hqq hqid
    have hqq2 : qq ∈ (s.questions.filter fun x => !(x.quiz_id = qid)) ++ newQs := hqq
    rcases List.mem_append.mp hqq2 with hleft | hright
    · have hp := (List.mem_filter.mp hleft).2
      rw [Bool.not_eq_true', decide_eq_false_iff_not] at hp
      exact absurd hqid hp
    · exact hright

/-- A quiz (id 1) with one question, two options, one submitted attempt and
its answer. -/
def exQuiz : QuizStore :=
  { questions := [{ id := 20, quiz_id := 1, question := "q1", order_index := 0 }]
    options := [{ id := 30, question_id := 20, option_text := "A", is_correct := true },
                { id := 31, question_id := 20, option_text := "B", is_correct := false }]
    attempts := [{ id := 40, quiz_id := 1, user_id := 3, submitted_at := some 5,
                   score_percent := some 100 }]
    answers := [{ attempt_id := 40, question_id := 20, selected_option_id := 30,
                  is_correct := true }] }

/-- The store `exQuiz` after regenerating quiz 1 with one fresh question and
option. -/
def exQuizRegen : QuizStore :=
  { questions := [{ id := 21, quiz_id := 1, question := "q2", order_index := 0 }]
    options := [{ id := 32, question_id := 21, option_text := "C", is_correct := true }]
    attempts := []
    answers := [] }

theorem C3_quiz_regeneration_atomic_witness :
    (regenerate_quiz_content 1
        [{ id := 21, quiz_id := 1, question := "q2", order_index := 0 }]
        [{ id := 32, question_id := 21, option_text := "C", is_correct := true }]
        exQuiz = Except.ok exQuizRegen) ∧
    ((∀ qa ∈ exQuizRegen.attempts, qa.quiz_id ≠ 1) ∧
     (∀ aa ∈ exQuizRegen.answers,
        (exQuizRegen.attempts.any fun qa => qa.id = aa.attempt_id && qa.quiz_id = 1) = true →
        (exQuizRegen.questions.any fun qq => qq.quiz_id = 1 && qq.id = aa.question_id) = true) ∧
     ((∀ aa ∈ exQuiz.answers, ∃ qq ∈ exQuiz.questions, qq.id = aa.question_id) →
       ∀ aa ∈ exQuizRegen.answers, ∃ qq ∈ exQuizRegen.questions, qq.id = aa.question_id) ∧
     (∀ qq ∈ exQuizRegen.questions, qq.quiz_id = 1 →
        qq ∈ [{ id := 21, quiz_id := 1, question := "q2", order_index := 0 }])) :=
  ⟨rfl, C3_quiz_regeneration_atomic 1
    [{ id := 21, quiz_id := 1, question := "q2", order_index := 0 }]
    [{ id := 32, question_id := 21, option_text := "C", is_correct := true }]
    exQuiz exQuizRegen rfl⟩

namespace QuizRunner

/-- A choice as loaded by the quiz runner page (`Choice`). -/
structure Choice where
  id : String
  text : String
  isCorrect : Bool
deriving DecidableEq, Repr

/-- A question as loaded by the quiz runner page (`Question`). -/
structure Question where
  id : String
  prompt : String
  choices : List Choice
deriving DecidableEq, Repr

/-- JavaScript `Math.round`: round half toward positive infinity. -/
def jsRound (x : ℚ) : ℤ := Int.floor (x + 1 / 2)

/-- `correctOpt?.id || ""` in the submit handler: the id of the first choice
flagged correct, or the empty string. -/
def correctChoiceId (qq : Question) : String :=
  match qq.choices.find? (fun c => c.isCorrect) with
  | some c => c.id
  | none => ""

/-- The submit handler's per-question test
`d.yourChoiceId === d.correctChoiceId`, with `answers[qq.id] ?? null` as the
selected choice. -/
def answeredCorrectly (answers : String → Option String) (qq : Question) : Bool :=
  answers qq.id == some (correctChoiceId qq)

/-- `const correct = details.filter(d => d.yourChoiceId === d.correctChoiceId).length`
(quiz runner page, `submit`). -/
def submitCorrectCount (questions : List Question)
    (answers : String → Option String) : Nat :=
  (questions.filter fun qq => answeredCorrectly answers qq).length

/-- `const score = Math.round((correct / total) * 100)`, the value persisted
into `quiz_attempts.score_percent`. -/
def submitScore (questions : List Question)
    (answers : String → Option String) : ℤ :=
  jsRound (((submitCorrectCount questions answers : ℚ) /
    ((questions.length : ℚ))) * 100)

/-- Stated from the spec for comparison: the number of answers whose
selected option is the question's correct option. -/
def specCorrectCount (questions : List Question)
    (answers : String → Option String) : Nat :=
  (questions.filter fun qq =>
    qq.choices.any fun ch => ch.isCorrect && (answers qq.id == some ch.id)).length

/-- Stated from the spec for comparison:
`round(100 × correct_count / total_questions)`. -/
def specScore (questions : List Question)
    (answers : String → Option String) : ℤ :=
  jsRound ((100 * (specCorrectCount questions answers : ℚ)) /
    ((questions.length : ℚ)))

/-- For a question with exactly one correct choice, the handler's string
comparison against `correctChoiceId` agrees with "the selected option is the
question's correct option". -/
theorem answeredCorrectly_eq_spec (answers : String → Option String)
    (qq : Question) (hone : (qq.choices.filter fun c => c.isCorrect).length = 1) :
    answeredCorrectly answers qq =
      (qq.choices.any fun ch => ch.isCorrect && (answers qq.id == some ch.id)) := by
  rcases List.length_eq_one.mp hone with ⟨c, hc⟩
  have hcmem : c ∈ qq.choices.filter fun c => c.isCorrect := by
    rw [hc]; exact List.mem_cons_self c []
  have hcin : c ∈ qq.choices := (List.mem_filter.mp hcmem).1
  have hccor : c.isCorrect = true := (List.mem_filter.mp hcmem).2
  have hfind : qq.choices.find? (fun c => c.isCorrect) = some c := by
    cases hf : qq.choices.find? (fun c => c.isCorrect) with
    | none =>
      have := List.find?_eq_none.mp hf c hcin
      rw [hccor] at this
      exact absurd rfl this
    | some c' =>
      have hc'cor : c'.isCorrect = true := List.find?_some hf
      have hc'in : c' ∈ qq.choices := List.mem_of_find?_eq_some hf
      have hc'filter : c' ∈ qq.choices.filter fun c => c.isCorrect :=
        List.mem_filter.mpr ⟨hc'in, hc'cor⟩
      rw [hc] at hc'filter
      rw [List.mem_singleton.mp hc'filter]
  unfold answeredCorrectly correctChoiceId
  rw [hfind]
  rw [Bool.eq_iff_iff]
  constructor
  · intro h
    exact List.any_eq_true.mpr ⟨c, hcin, by rw [Bool.and_eq_true]; exact ⟨hccor, h⟩⟩
  · intro h
    rcases List.any_eq_true.mp h with ⟨ch, hchin, hchp⟩
    rw [Bool.and_eq_true] at hchp
    have hchfilter : ch ∈ qq.choices.filter fun c => c.isCorrect :=
      List.mem_filter.mpr ⟨hchin, hchp.1⟩
    rw [hc] at hchfilter
    rw [List.mem_singleton.mp hchfilter] at hchp
    exact hchp.2

/-- C9: for every submitted attempt over questions each carrying exactly one
correct option (Invariant 2), the persisted `score_percent` equals
`round(100 × correct_count / total_questions)` with `correct_count` the
number of answers selecting the question's correct option; in particular 6
correct out of 10 yields 60. -/
theorem C9_submit_score (questions : List Question)
    (answers : String → Option String)
    (hone : ∀ qq ∈ questions, (qq.choices.filter fun c => c.isCorrect).length = 1) :
    submitScore questions answers = specScore questions answers ∧
    (questions.length = 10 → specCorrectCount questions answers = 6 →
      submitScore questions answers = 60) := by
  have hcount : submitCorrectCount questions answers =
      specCorrectCount questions answers := by
    unfold submitCorrectCount specCorrectCount
    have : questions.filter (fun qq => answeredCorrectly answers qq) =
        questions.filter (fun qq =>
          qq.choices.any fun ch => ch.isCorrect && (answers qq.id == some ch.id)) :=
      List.filter_congr (fun qq hqq => by
        rw [answeredCorrectly_eq_spec answers qq (hone qq hqq)])
    rw [this]
  have hmain : submitScore questions answers = specScore questions answers := by
    unfold submitScore specScore
    rw [hcount]
    congr 1
    ring
  refine ⟨hmain, ?_⟩
  intro hlen hcnt
  rw [hmain]
  unfold specScore
  rw [hlen, hcnt]
  unfold jsRound
  norm_num

/-- Ten questions, each with one correct and one wrong choice. -/
def exQs : List Question :=
  (List.range 10).map fun i =>
    { id := toString i, prompt := "p"
      choices := [{ id := toString i ++ "A", text := "A", isCorrect := true },
                  { id := toString i ++ "B", text := "B", isCorrect := false }] }

/-- An answer map selecting the correct choice for the first six questions
and the wrong one for the rest. -/
def exAns : String → Option String := fun q =>
  if q = "0" ∨ q = "1" ∨ q = "2" ∨ q = "3" ∨ q = "4" ∨ q = "5" then
    some (q ++ "A")
  else some (q ++ "B")

theorem C9_submit_score_witness :
    (∀ qq ∈ exQs, (qq.choices.filter fun c => c.isCorrect).length = 1) ∧
    (submitScore exQs exAns = specScore exQs exAns ∧
      (exQs.length = 10 → specCorrectCount exQs exAns = 6 →
        submitScore exQs exAns = 60)) :=
  ⟨by decide, C9_submit_score exQs exAns (by decide)⟩

end QuizRunner
